import Mathlib

/-!
Shallow embedding of the lazybar layout and event engine
(src/lazybar-core/src/bar.rs, src/lazybar-core/src/ramp.rs,
src/src/utils.rs).

Modelling conventions: machine floats (f64) are modelled as exact
rationals; i32 widths as Int; usize arithmetic wraps modulo 2^64 as in a
release build; fallible Rust functions return Except/Option; drawing and
X11 side effects are dropped, while their state effects (extents, panel
x, last_status, mapped flags) are kept explicitly.
-/

namespace Lazybar

/-- Rust `Dependence` (bar.rs): which neighbor(s) a panel depends on to be shown. -/
inductive Dependence
  | none
  | left
  | right
  | both
deriving DecidableEq, Repr

/-- Rust `PanelStatus` (bar.rs): derived visibility status of a panel. -/
inductive PanelStatus
  | shown
  | zeroWidth
  | dependent (d : Dependence)
deriving DecidableEq, Repr

/-- Rust `impl BitAnd for PanelStatus` (bar.rs:152): only Shown ∧ Shown survives. -/
def PanelStatus.and (a b : PanelStatus) : PanelStatus :=
  if a = PanelStatus.shown ∧ b = PanelStatus.shown then PanelStatus.shown
  else PanelStatus.zeroWidth

/-- Rust `PanelDrawInfo` (bar.rs): width/height in pixels, dependence rule, and
presence of the optional lifecycle hooks (the callables themselves carry no
state that layout reads, so only their presence is modelled). -/
structure PanelDrawInfo where
  width : Int
  height : Int
  dependence : Dependence
  hasShowFn : Bool
  hasHideFn : Bool
deriving DecidableEq, Repr

/-- Rust `Panel` (bar.rs): name, visibility flag, optional draw info, last placed
x coordinate, shown-on-last-pass latch, and presence of an event endpoint. -/
structure Panel where
  drawInfo : Option PanelDrawInfo
  x : ℚ
  name : String
  visible : Bool
  lastStatus : Bool
  hasEndpoint : Bool
deriving DecidableEq, Repr

/-- Rust `impl From<&Panel> for PanelStatus` (bar.rs:164): the primary status. -/
def panelStatusOf (p : Panel) : PanelStatus :=
  if p.visible then
    match p.drawInfo with
    | Option.none => PanelStatus.zeroWidth
    | some d =>
      match d.dependence, d.width with
      | Dependence.none, 0 => PanelStatus.zeroWidth
      | Dependence.none, _ => PanelStatus.shown
      | dep, _ => PanelStatus.dependent dep
  else PanelStatus.zeroWidth

/-- Two to the 64, the modulus of Rust `usize` arithmetic. -/
def usizeSize : Nat := 18446744073709551616

/-- Rust `idx - 1` in `usize` arithmetic: in a release build the subtraction at
bar.rs:436 wraps modulo 2^64 when `idx = 0`. -/
def usizeSub1 (idx : Nat) : Nat := (idx + (usizeSize - 1)) % usizeSize

/-- The body of the closure in `Bar::apply_dependence` (bar.rs:432-450) at
one index. `panels.get(i).map_or(ZeroWidth, PanelStatus::from)` is
`((panels.get? i).map panelStatusOf).getD zeroWidth`. The
`Dependent(None)` arm is `unreachable!()` in the source (the primary
status never produces it); the out-of-range arm cannot occur for
`idx < panels.length`. -/
def resolveAt (panels : List Panel) (idx : Nat) : PanelStatus :=
  match (panels.get? idx).map panelStatusOf with
  | some PanelStatus.shown => PanelStatus.shown
  | some PanelStatus.zeroWidth => PanelStatus.zeroWidth
  | some (PanelStatus.dependent Dependence.left) =>
      ((panels.get? (usizeSub1 idx)).map panelStatusOf).getD PanelStatus.zeroWidth
  | some (PanelStatus.dependent Dependence.right) =>
      ((panels.get? (idx + 1)).map panelStatusOf).getD PanelStatus.zeroWidth
  | some (PanelStatus.dependent Dependence.both) =>
      PanelStatus.and
        (((panels.get? (usizeSub1 idx)).map panelStatusOf).getD PanelStatus.zeroWidth)
        (((panels.get? (idx + 1)).map panelStatusOf).getD PanelStatus.zeroWidth)
  | some (PanelStatus.dependent Dependence.none) => PanelStatus.zeroWidth
  | Option.none => PanelStatus.zeroWidth

/-- Rust `Bar::apply_dependence` (bar.rs:430-452). -/
def applyDependence (panels : List Panel) : List PanelStatus :=
  (List.range panels.length).map (resolveAt panels)

/-- Rust `MouseButton` (bar.rs:184). -/
inductive MouseButton
  | left
  | middle
  | right
  | scrollUp
  | scrollDown
deriving DecidableEq, Repr

/-- Rust `MouseButton::try_parse` (bar.rs:198-219). -/
def MouseButton.tryParse (value : Nat) (reverse : Bool) :
    Except String MouseButton :=
  match value with
  | 1 => Except.ok MouseButton.left
  | 2 => Except.ok MouseButton.middle
  | 3 => Except.ok MouseButton.right
  | 4 =>
    if reverse then Except.ok MouseButton.scrollUp
    else Except.ok MouseButton.scrollDown
  | 5 =>
    if reverse then Except.ok MouseButton.scrollDown
    else Except.ok MouseButton.scrollUp
  | _ => Except.error "X server provided invalid button"

/-- Model of `f64::trunc` on an exact rational: truncation toward zero, which for a
normalized rational is T-division of numerator by denominator. -/
def ratTrunc (q : ℚ) : Int := q.num.tdiv (q.den : Int)

/-- Rust `as usize` on a truncated f64: saturating — negative values go to
0, values above `usize::MAX` go to `usize::MAX`. -/
def truncToUsize (q : ℚ) : Nat := (ratTrunc q).toNat.min (usizeSize - 1)

/-- Rust `Ramp::choose` (src/lazybar-core/src/ramp.rs:23-46). The proportion
`prop` is clamped against the raw `min`/`max` bounds exactly as in the
source; the final `.get(...).unwrap()` cannot be `None` (the index is
capped at `len - 1` on a nonempty list), modelled with a `""` default. -/
def chooseCore (icons : List String) (value lo hi : ℚ) : String :=
  if icons = [] then ""
  else
    let prop0 := (value - lo) / (hi - lo)
    let prop1 := if prop0 < lo then lo else prop0
    let prop2 := if prop1 > hi then hi else prop1
    let idx := prop2 * (icons.length : ℚ)
    (icons.get? ((truncToUsize idx).min (usizeSub1 icons.length))).getD ""

/-- Rust `Ramp::choose` (src/src/utils.rs:15-27): no emptiness guard and no
clamping of the proportion. On the empty list the source underflows
`len - 1` and panics on `unwrap`; every claim about it assumes at least
one icon, so that path is modelled with the same `""` default. -/
def chooseUtils (icons : List String) (value lo hi : ℚ) : String :=
  let prop := (value - lo) / (hi - lo)
  let idx := prop * (icons.length : ℚ)
  (icons.get? ((truncToUsize idx).min (usizeSub1 icons.length))).getD ""

/-- Rust `Margins` (crate root): pixel margins around and between regions. -/
structure Margins where
  left : ℚ
  internal : ℚ
  right : ℚ
deriving DecidableEq, Repr

/-- Rust `CenterState` (bar.rs:61). -/
inductive CenterState
  | center
  | left
  | right
  | unknown
deriving DecidableEq, Repr

/-- Rust `Extents` (bar.rs:78). Rust `extents.center.0` is the first and
`extents.center.1` the second component of `center`. -/
structure Extents where
  left : ℚ
  center : ℚ × ℚ
  right : ℚ
deriving DecidableEq, Repr

/-- The state-bearing fields of `Bar` (bar.rs:303). Drawing handles and
streams are dropped; `winMapped` tracks the X server window map state as
driven by the `map_window`/`unmap_window` calls, next to the bar's own
`mapped` field. -/
structure Bar where
  width : Int
  height : Int
  margins : Margins
  extents : Extents
  reverseScroll : Bool
  leftPanels : List Panel
  centerPanels : List Panel
  rightPanels : List Panel
  mapped : Bool
  winMapped : Bool
  centerState : CenterState
deriving DecidableEq, Repr

/-- The `last_status` writes of `Bar::process_show_hide_events`
(bar.rs:505): each zipped panel latches whether its status is Shown. The
source `assert_eq!`s the two lengths, so the truncating behaviour on
unequal lengths is never reached. -/
def updateLatches : List Panel → List PanelStatus → List Panel
  | p :: ps, s :: ss =>
    { p with lastStatus := s == PanelStatus.shown } :: updateLatches ps ss
  | _, _ => []

/-- The `hidden` collection of `Bar::process_show_hide_events`
(bar.rs:493-498): draw infos of panels that were shown on the last pass
and are no longer Shown. -/
def collectHidden : List Panel → List PanelStatus → List PanelDrawInfo
  | p :: ps, s :: ss =>
    (match p.drawInfo with
     | some d =>
       if p.lastStatus ∧ s ≠ PanelStatus.shown then [d] else []
     | Option.none => []) ++ collectHidden ps ss
  | _, _ => []

/-- The `shown` collection of `Bar::process_show_hide_events`
(bar.rs:499-504): draw infos of panels that were not shown on the last
pass and are now Shown. -/
def collectShown : List Panel → List PanelStatus → List PanelDrawInfo
  | p :: ps, s :: ss =>
    (match p.drawInfo with
     | some d =>
       if ¬p.lastStatus ∧ s = PanelStatus.shown then [d] else []
     | Option.none => []) ++ collectShown ps ss
  | _, _ => []

/-- Rust `Bar::process_show_hide_events` (bar.rs:482-517): updated panels, the
hide-transition draw infos, and the show-transition draw infos. The hooks
then run after collection: every hide hook first, then every show hook. -/
def processShowHide (panels : List Panel) (statuses : List PanelStatus) :
    List Panel × List PanelDrawInfo × List PanelDrawInfo :=
  (updateLatches panels statuses,
    collectHidden panels statuses,
    collectShown panels statuses)

/-- The chronological hook invocation sequence of one
`process_show_hide_events` call (bar.rs:507-516): a `false` entry is a
hide-hook call, a `true` entry a show-hook call; only present hooks run. -/
def hookCalls (hidden shown : List PanelDrawInfo) : List Bool :=
  (hidden.filter PanelDrawInfo.hasHideFn).map (fun _ => false)
    ++ (shown.filter PanelDrawInfo.hasShowFn).map (fun _ => true)

/-- The per-panel hook event trace over a sequence of resolver outputs:
each call of `process_show_hide_events` on the single panel appends its
hide events (`false`) and show events (`true`) and carries the updated
panel into the next call. -/
def latchTrace (p : Panel) : List PanelStatus → List Bool
  | [] => []
  | s :: rest =>
    let r := processShowHide [p] [s]
    ((r.2.1.map fun _ => false) ++ (r.2.2.map fun _ => true))
      ++ latchTrace (r.1.headD p) rest

/-- The latch value after a sequence of statuses (starting from `l0`):
`last_status` after the final call. -/
def latchFinal (l0 : Bool) (statuses : List PanelStatus) : Bool :=
  statuses.foldl (fun _ s => s == PanelStatus.shown) l0

/-- The widths summed by the redraw functions (bar.rs:1045-1057,
1134-1144): widths of draw infos of status-Shown panels. -/
def shownWidths : List Panel → List PanelStatus → List Int
  | p :: ps, s :: ss =>
    (if s = PanelStatus.shown then
      (p.drawInfo.map PanelDrawInfo.width).toList
    else []) ++ shownWidths ps ss
  | _, _ => []

/-- The placement loop shared by the redraw functions (bar.rs:978-996,
1094-1104, 1154-1172): each status-Shown panel with draw info gets its
`x` set to the running cursor, which then advances by its width; other
panels are left untouched. -/
def placeRun (cursor : ℚ) : List Panel → List PanelStatus → List Panel × ℚ
  | p :: ps, s :: ss =>
    if s = PanelStatus.shown then
      match p.drawInfo with
      | some d =>
        let r := placeRun (cursor + (d.width : ℚ)) ps ss
        ({ p with x := cursor } :: r.1, r.2)
      | Option.none =>
        let r := placeRun cursor ps ss
        (p :: r.1, r.2)
    else
      let r := placeRun cursor ps ss
      (p :: r.1, r.2)
  | ps, _ => (ps, cursor)

/-- Rust `Bar::redraw_left` (bar.rs:964-1002): reset the left cursor to the
left margin, resolve dependence, drive the latch, place the shown panels. -/
def redrawLeft (bar : Bar) : Bar :=
  let statuses := applyDependence bar.leftPanels
  let panels1 := (processShowHide bar.leftPanels statuses).1
  let placed := placeRun bar.margins.left panels1 statuses
  { bar with
    leftPanels := placed.1,
    extents := { bar.extents with left := placed.2 } }

/-- The four-way center start computation of `Bar::redraw_center_right`
(bar.rs:1059-1092), as a function of the left cursor `L`, the usable right
boundary `right0`, the integer midpoint `mid`, the internal margin `m`,
and the shown center width `C`. -/
def centerPlacement (L right0 mid m C : ℚ) : ℚ × CenterState :=
  if C > right0 - L - 2 * m then (L + m, CenterState.unknown)
  else if C / 2 > right0 - mid - m then (right0 - C - m, CenterState.left)
  else if C / 2 > mid - L - m then (L + m, CenterState.right)
  else (mid - C / 2, CenterState.center)

/-- The right-edge computation of `Bar::redraw_right` (bar.rs:1146-1150):
`totalWidth` includes the right margin; on overflow the right region is
pushed against the center cursor plus the internal margin. -/
def rightEdge (W center1 m totalWidth : ℚ) : ℚ :=
  if totalWidth > W - center1 then center1 + m else W - totalWidth

/-- Rust `Bar::redraw_right` (bar.rs:1114-1178). The `standalone` flag only
selects background clearing, which has no modelled state. -/
def redrawRight (bar : Bar) (standalone : Bool)
    (statuses? : Option (List PanelStatus)) : Bar :=
  let _ := standalone
  let statuses := statuses?.getD (applyDependence bar.rightPanels)
  let panels1 := (processShowHide bar.rightPanels statuses).1
  let totalWidth : ℚ :=
    ((shownWidths panels1 statuses).sum : ℚ) + bar.margins.right
  let newRight :=
    rightEdge (bar.width : ℚ) bar.extents.center.2 bar.margins.internal
      totalWidth
  let placed := placeRun newRight panels1 statuses
  { bar with
    rightPanels := placed.1,
    extents := { bar.extents with right := newRight } }

/-- Rust `Bar::redraw_center_right` (bar.rs:1004-1112): resolve and latch the
center and right regions, set the usable right boundary, pick the center
start by the four-way state machine, place the center panels, then run
`redraw_right` with the already-computed right statuses. -/
def redrawCenterRight (bar : Bar) (standalone : Bool) : Bar :=
  let cStatuses := applyDependence bar.centerPanels
  let centerPanels1 := (processShowHide bar.centerPanels cStatuses).1
  let rStatuses := applyDependence bar.rightPanels
  let rightPanels1 := (processShowHide bar.rightPanels rStatuses).1
  let centerWidth : ℚ := ((shownWidths centerPanels1 cStatuses).sum : ℚ)
  let right0 : ℚ :=
    (bar.width : ℚ) - ((shownWidths rightPanels1 rStatuses).sum : ℚ)
      - bar.margins.internal
  let mid : ℚ := ((bar.width.tdiv 2 : Int) : ℚ)
  let cs := centerPlacement bar.extents.left right0 mid
    bar.margins.internal centerWidth
  let placed := placeRun cs.1 centerPanels1 cStatuses
  let bar1 := { bar with
    centerPanels := placed.1,
    rightPanels := rightPanels1,
    extents := { bar.extents with
      center := (cs.1, placed.2),
      right := right0 },
    centerState := cs.2 }
  redrawRight bar1 standalone (some rStatuses)

/-- Rust `Bar::redraw_bar` (bar.rs:953-962): full background clear (not
modelled), then left and center-right passes. -/
def redrawBar (bar : Bar) : Bar :=
  redrawCenterRight (redrawLeft bar) false

/-- The "show" arm of `Bar::handle_ipc_event` (bar.rs:575-580): sets
`mapped`, maps the window, runs the show hooks. -/
def handleIpcShow (bar : Bar) : Bar × Bool :=
  ({ bar with mapped := true, winMapped := true }, false)

/-- The "hide" arm of `Bar::handle_ipc_event` (bar.rs:581-586): the source
sets `mapped = true` even though it unmaps the window. -/
def handleIpcHide (bar : Bar) : Bar × Bool :=
  ({ bar with mapped := true, winMapped := false }, false)

/-- Rust `Bar::handle_ipc_event` (bar.rs:572-596): the Bool is the "terminate"
signal; unknown commands are ignored. -/
def handleIpcEvent (bar : Bar) (message : String) : Bar × Bool :=
  if message = "quit" then (bar, true)
  else if message = "show" then handleIpcShow bar
  else if message = "hide" then handleIpcHide bar
  else if message = "toggle" then
    if bar.mapped then handleIpcHide bar else handleIpcShow bar
  else (bar, false)

/-- Greedy run of ASCII digits, the `\d+` of the REGEX at bar.rs:38. -/
def takeDigits : List Char → List Char × List Char
  | [] => ([], [])
  | c :: cs =>
    if c.isDigit then
      let r := takeDigits cs
      (c :: r.1, r.2)
    else ([], c :: cs)

/-- Digit-string to number, `str::parse::<usize>` on a digit capture. -/
def natOfDigits (ds : List Char) : Nat :=
  ds.foldl (fun acc c => acc * 10 + (c.toNat - 48)) 0

/-- Anchored match of the REGEX `(?<region>[lcr])(?<idx>\d+).(?<message>.+)`
(bar.rs:38) at the head of the list: a region letter, a greedy digit run
(given back as needed so that one arbitrary character and a nonempty
message remain), the matched-anything character, and the message. -/
def anchoredMatch (l : List Char) : Option (Char × List Char × List Char) :=
  match l with
  | [] => Option.none
  | c :: cs =>
    if c == 'l' || c == 'c' || c == 'r' then
      let ds := (takeDigits cs).1
      let rest := (takeDigits cs).2
      let avail := ds.length + rest.length
      let d1len := min ds.length (avail - 2)
      if 1 ≤ d1len then
        match ds.drop d1len ++ rest with
        | _ :: m1 :: ms => some (c, ds.take d1len, m1 :: ms)
        | _ => Option.none
      else Option.none
    else Option.none

/-- Leftmost match of the REGEX, `Regex::captures_iter(..).next()`
(bar.rs:599). -/
def regexFind : List Char → Option (Char × List Char × List Char)
  | [] => Option.none
  | c :: cs =>
    match anchoredMatch (c :: cs) with
    | some r => some r
    | Option.none => regexFind cs

/-- Rust `Bar::handle_panel_event` (bar.rs:598-627): parse
`<region><idx>.<verb>`, flip the addressed panel's `visible` flag, and
trigger the region's repaint; an out-of-range index is silently ignored,
an unknown verb is an error (raised before any mutation). -/
def handlePanelEvent (bar : Bar) (msg : List Char) :
    Except String (Bar × Bool) :=
  match regexFind msg with
  | Option.none => Except.ok (bar, false)
  | some (region, idxDigits, verb) =>
    if usizeSize ≤ natOfDigits idxDigits then
      Except.error "invalid digit found in string"
    else
      let idx := natOfDigits idxDigits
      let panels :=
        if region == 'l' then bar.leftPanels
        else if region == 'c' then bar.centerPanels
        else bar.rightPanels
      match panels.get? idx with
      | Option.none => Except.ok (bar, false)
      | some target =>
        let target1 :=
          if verb = "show".toList then some { target with visible := true }
          else if verb = "hide".toList then
            some { target with visible := false }
          else if verb = "toggle".toList then
            some { target with visible := !target.visible }
          else Option.none
        match target1 with
        | Option.none =>
          Except.error ("Unknown message " ++ String.mk verb)
        | some t =>
          let panels1 := panels.set idx t
          let bar1 :=
            if region == 'l' then { bar with leftPanels := panels1 }
            else if region == 'c' then { bar with centerPanels := panels1 }
            else { bar with rightPanels := panels1 }
          let bar2 :=
            if region == 'l' then redrawLeft bar1
            else if region == 'c' then redrawCenterRight bar1 true
            else redrawRight bar1 true Option.none
          Except.ok (bar2, false)

/-- The bar reached by `handle_panel_event` (errors leave it unchanged). -/
def panelEventBar (bar : Bar) (msg : List Char) : Bar :=
  match handlePanelEvent bar msg with
  | Except.ok r => r.1
  | Except.error _ => bar

/-- Rust `EventResponse` (bar.rs:244). -/
inductive EventResponse
  | ok
  | err (e : String)
deriving DecidableEq, Repr

/-- Rust `impl Display for EventResponse` (bar.rs:251-260). -/
def renderResponse : EventResponse → String
  | EventResponse.ok => "SUCCESS"
  | EventResponse.err e => "FAILURE: " ++ e

/-- Rust `str::strip_prefix` with a one-character prefix (bar.rs:636). -/
def stripPrefixChar (c : Char) (l : List Char) : Option (List Char) :=
  match l with
  | x :: xs => if x = c then some xs else Option.none
  | [] => Option.none

/-- First split at a separator character, Rust `str::split_once`
(bar.rs:640). -/
def splitOnce (sep : Char) : List Char → Option (List Char × List Char)
  | [] => Option.none
  | c :: cs =>
    if c == sep then some ([], cs)
    else (splitOnce sep cs).map fun pr => (c :: pr.1, pr.2)

/-- The three panel regions chained in left-center-right order, as in the
iterator chains of bar.rs. -/
def allPanels (bar : Bar) : List Panel :=
  bar.leftPanels ++ bar.centerPanels ++ bar.rightPanels

/-- The observable outcome of `Bar::send_message`: the resulting bar
state, the `(panel name, action)` events handed to panel endpoints, the
`EventResponse` pushed synchronously to the IPC reply channel by the
error paths, and the returned `Result<bool>`. -/
structure SendOutcome where
  bar : Bar
  sentActions : List (String × String)
  ipcResponse : Option EventResponse
  result : Except String Bool
deriving Repr

/-- Rust `Bar::send_message` (bar.rs:630-705). A leading `#` routes to
`handle_panel_event`; otherwise a message with a `.` addresses the named
panel: the source takes the first name match, errs if there is none, errs
if a second match exists, errs if the unique match has no endpoint
(matching on the filtered list is the same case split), and on success
spawns a task that forwards the action; the eventual panel reply is
asynchronous and not part of this outcome. -/
def sendMessage (bar : Bar) (msg : List Char) : SendOutcome :=
  match stripPrefixChar '#' msg with
  | some stripped =>
    match handlePanelEvent bar stripped with
    | Except.ok r => ⟨r.1, [], Option.none, Except.ok r.2⟩
    | Except.error e => ⟨bar, [], Option.none, Except.error e⟩
  | Option.none =>
    match splitOnce '.' msg with
    | Option.none =>
      let r := handleIpcEvent bar (String.mk msg)
      ⟨r.1, [], Option.none, Except.ok r.2⟩
    | some (pname, action) =>
      let pnameS := String.mk pname
      match (allPanels bar).filter fun p => p.name == pnameS with
      | [] =>
        let e := "No panel with name " ++ pnameS ++ " was found"
        ⟨bar, [], some (EventResponse.err e), Except.error e⟩
      | [target] =>
        if target.hasEndpoint then
          ⟨bar, [(target.name, String.mk action)], Option.none,
            Except.ok false⟩
        else
          let e :=
            "The target panel has no associated sender and cannot be messaged"
          ⟨bar, [], some (EventResponse.err e), Except.error e⟩
      | _ :: _ :: _ =>
        let e := "This panel has multiple instances and cannot be messaged"
        ⟨bar, [], some (EventResponse.err e), Except.error e⟩

/-- Rust `p.x as i16` (bar.rs:559): saturating cast of a truncated f64. -/
def i16Sat (q : ℚ) : Int := max (-32768) (min 32767 (ratTrunc q))

/-- Wrapping i16 arithmetic for `x - p.x as i16` in a release build. -/
def wrap16 (z : Int) : Int := (z + 32768) % 65536 - 32768

/-- The range test of the `find` at bar.rs:543-548:
`p.x <= x && p.x + width >= x` (both bounds inclusive). -/
def containsX (p : Panel) (x : Int) : Bool :=
  decide (p.x ≤ (x : ℚ))
    && decide ((x : ℚ) ≤
        p.x + (((p.drawInfo.map PanelDrawInfo.width).getD 0 : Int) : ℚ))

/-- The ButtonPress arm of `Bar::process_event` (bar.rs:528-567): for a
button detail in 1..=5, find the first panel with draw info across the
three regions whose x-range contains the click, and deliver the decoded
button with panel-relative x on its endpoint, if it has one. The result
is the delivered event: receiving panel name, button, translated x, y. -/
def dispatchMouse (bar : Bar) (button : Nat) (x y : Int) :
    Option (String × MouseButton × Int × Int) :=
  if 1 ≤ button ∧ button ≤ 5 then
    match ((allPanels bar).filter fun p => p.drawInfo.isSome).find?
        (fun p => containsX p x) with
    | some p =>
      if p.hasEndpoint then
        match MouseButton.tryParse button bar.reverseScroll with
        | Except.ok b => some (p.name, b, wrap16 (x - i16Sat p.x), y)
        | Except.error _ => Option.none
      else Option.none
    | Option.none => Option.none
  else Option.none

/-- The visibility flags of all three regions, the state addressed by the
`#`-prefixed IPC commands. -/
def visibleFlags (bar : Bar) : List Bool × List Bool × List Bool :=
  (bar.leftPanels.map Panel.visible, bar.centerPanels.map Panel.visible,
    bar.rightPanels.map Panel.visible)

/-- Panels for concrete instances below. -/
def wPanelBoth : Panel :=
  ⟨some ⟨10, 16, Dependence.both, false, false⟩, 0, "pboth", true, false, false⟩

def wPanelRight : Panel :=
  ⟨some ⟨10, 16, Dependence.right, false, false⟩, 0, "pright", true, false, false⟩

/-- A plain always-shown panel of a given width. -/
def mkShown (nm : String) (w : Int) : Panel :=
  ⟨some ⟨w, 16, Dependence.none, false, false⟩, 0, nm, true, false, false⟩

/-- A bar with empty regions for concrete instances: width 1000, margins
(left 10, internal 5, right 10), centered initial extents. -/
def wBarEmpty : Bar :=
  ⟨1000, 16, ⟨10, 5, 10⟩, ⟨0, (500, 500), 1000⟩, false, [], [], [],
    true, true, CenterState.center⟩

/-- An unmapped variant of `wBarEmpty`. -/
def wBarUnmapped : Bar :=
  { wBarEmpty with mapped := false, winMapped := false }

/-- Four visible left panels, for the panel addressing witness. -/
def wBar9 : Bar :=
  { wBarEmpty with leftPanels :=
      [mkShown "a" 10, mkShown "b" 10, mkShown "c" 10, mkShown "d" 10] }

/-- One wide left panel, for the standalone `redraw_left` scenario. -/
def wBarWideLeft : Bar :=
  { wBarEmpty with leftPanels := [mkShown "A" 600] }

/-- Spec scenario 1 regions (left 100+50, center 200, right 80). -/
def wBarScenario1 : Bar :=
  { wBarEmpty with
    leftPanels := [mkShown "A" 100, mkShown "B" 50],
    centerPanels := [mkShown "C" 200],
    rightPanels := [mkShown "D" 80] }

/-- Scenario 1 regions with a right margin equal to the internal margin. -/
def wBarBalanced : Bar :=
  { wBarScenario1 with margins := ⟨10, 5, 5⟩ }

/-- A bar whose right margin (8) exceeds its internal margin (5), with a
center panel of width 400 and a right panel of width 300. -/
def wBarRightMargin : Bar :=
  { wBarEmpty with
    margins := ⟨10, 5, 8⟩,
    centerPanels := [mkShown "C" 400],
    rightPanels := [mkShown "D" 300] }

/-- A bar for the standalone `redraw_right` scenario: stale center cursor
at 500 and a right panel of width 490 with right margin 8. -/
def wBarRightOnly : Bar :=
  { wBarEmpty with
    margins := ⟨10, 5, 8⟩,
    rightPanels := [mkShown "D" 490] }

/-- Alternation of a hook event trace starting from latch value `l`:
every event flips the latch it follows. -/
def altFrom : Bool → List Bool → Prop
  | _, [] => True
  | l, b :: t => b = !l ∧ altFrom b t

/-- A panel at x = 0 of width 10 with an endpoint, for mouse dispatch. -/
def wPanelMouse : Panel :=
  ⟨some ⟨10, 16, Dependence.none, false, false⟩, 0, "P", true, false, true⟩

/-- A bar holding only `wPanelMouse`, for mouse dispatch instances. -/
def wBarMouse : Bar :=
  { wBarEmpty with leftPanels := [wPanelMouse] }

/-- Two panels both named "clock", neither with an endpoint. -/
def wBarClock : Bar :=
  { wBarEmpty with
    leftPanels := [⟨Option.none, 0, "clock", true, false, false⟩],
    centerPanels := [⟨Option.none, 0, "clock", true, false, false⟩] }

end Lazybar

namespace Lazybar

/-- C1: `apply_dependence` is total, returns a same-length status list, a
panel at index 0 with Left or Both dependence resolves to ZeroWidth, and a
panel at the last index with Right or Both dependence resolves to
ZeroWidth: the out-of-range neighbor lookups (index wrapping to 2^64 - 1,
or one past the end) fall to the `map_or` default ZeroWidth. -/
theorem apply_dependence_clamps (panels : List Panel)
    (hlen : panels.length < usizeSize) :
    (applyDependence panels).length = panels.length
    ∧ (∀ p0 d, panels.get? 0 = some p0 → p0.drawInfo = some d →
        (d.dependence = Dependence.left ∨ d.dependence = Dependence.both) →
        (applyDependence panels).get? 0 = some PanelStatus.zeroWidth)
    ∧ (∀ pl d, panels.get? (panels.length - 1) = some pl →
        pl.drawInfo = some d →
        (d.dependence = Dependence.right ∨ d.dependence = Dependence.both) →
        (applyDependence panels).get? (panels.length - 1) =
          some PanelStatus.zeroWidth) := by
  have hget : ∀ i, i < panels.length →
      (applyDependence panels).get? i = some (resolveAt panels i) := by
    intro i hi
    simp [applyDependence, List.get?_eq_getElem?, List.getElem?_map,
      List.getElem?_range, hi]
  refine ⟨by simp [applyDependence], ?_, ?_⟩
  · intro p0 d h0 hd hdep
    have h0lt : 0 < panels.length := by
      cases panels with
      | nil => simp at h0
      | cons a l => simp
    rw [hget 0 h0lt]
    have hwrap : panels[usizeSub1 0]? = (Option.none : Option Panel) := by
      apply List.getElem?_eq_none
      have h1 : usizeSub1 0 = usizeSize - 1 := by
        simp [usizeSub1]
      rw [h1]
      omega
    rcases hdep with hL | hB
    · simp only [resolveAt, h0, Option.map_some]
      by_cases hv : p0.visible <;>
        simp [panelStatusOf, hv, hd, hL, hwrap, PanelStatus.and]
    · simp only [resolveAt, h0, Option.map_some]
      by_cases hv : p0.visible <;>
        simp [panelStatusOf, hv, hd, hB, hwrap, PanelStatus.and]
  · intro pl d hl hd hdep
    have h0lt : 0 < panels.length := by
      cases panels with
      | nil => simp at hl
      | cons a l => simp
    have hlt : panels.length - 1 < panels.length := by omega
    rw [hget _ hlt]
    have hover :
        panels[panels.length - 1 + 1]? = (Option.none : Option Panel) := by
      apply List.getElem?_eq_none
      omega
    rcases hdep with hR | hB
    · simp only [resolveAt, hl, Option.map_some]
      by_cases hv : pl.visible <;>
        simp [panelStatusOf, hv, hd, hR, hover, PanelStatus.and]
    · simp only [resolveAt, hl, Option.map_some]
      by_cases hv : pl.visible <;>
        simp [panelStatusOf, hv, hd, hB, hover, PanelStatus.and]

/-- C1 witness: a two-panel region, index 0 depending on Both and index 1
depending on Right; both resolve to ZeroWidth. -/
theorem apply_dependence_clamps_witness :
    (applyDependence [wPanelBoth, wPanelRight]).get? 0 =
      some PanelStatus.zeroWidth
    ∧ (applyDependence [wPanelBoth, wPanelRight]).get? 1 =
      some PanelStatus.zeroWidth := by
  have h := apply_dependence_clamps [wPanelBoth, wPanelRight]
    (by norm_num [usizeSize])
  exact ⟨h.2.1 wPanelBoth _ rfl rfl (Or.inr rfl),
    h.2.2 wPanelRight _ rfl rfl (Or.inl rfl)⟩

/-- C4 counterexample: with `reverse_scroll` unset the code maps button 4
to ScrollDown (bar.rs:203-209), not ScrollUp as the claim states. -/
theorem mouse_decode_counterexample :
    MouseButton.tryParse 4 false = Except.ok MouseButton.scrollDown
    ∧ MouseButton.tryParse 4 false ≠ Except.ok MouseButton.scrollUp := by
  refine ⟨rfl, fun h => ?_⟩
  cases h

/-- C4 amended: `try_parse` maps 1 to Left, 2 to Middle, 3 to Right for
either flag value, and maps the pair {4,5} to {ScrollDown, ScrollUp} in
that order when `reverse_scroll` is unset, with the pair swapped when it
is set. -/
theorem mouse_decode_amended (r : Bool) :
    MouseButton.tryParse 1 r = Except.ok MouseButton.left
    ∧ MouseButton.tryParse 2 r = Except.ok MouseButton.middle
    ∧ MouseButton.tryParse 3 r = Except.ok MouseButton.right
    ∧ MouseButton.tryParse 4 false = Except.ok MouseButton.scrollDown
    ∧ MouseButton.tryParse 5 false = Except.ok MouseButton.scrollUp
    ∧ MouseButton.tryParse 4 true = Except.ok MouseButton.scrollUp
    ∧ MouseButton.tryParse 5 true = Except.ok MouseButton.scrollDown := by
  cases r <;> exact ⟨rfl, rfl, rfl, rfl, rfl, rfl, rfl⟩

/-- C5: evaluating the ramp.rs `choose` at the failing input. With four
icons and `(value, min, max) = (4, 2, 10)` the proportion is 1/4, the
specified result is `icons[floor(1/4 * 4)] = icons[1] = "b"`, but the code
clamps the proportion against the raw bound `min = 2`, computes index
`2 * 4 = 8`, caps it at 3, and returns `icons[3] = "d"`. -/
theorem ramp_choose_failing_input :
    chooseCore ["a", "b", "c", "d"] 4 2 10 = "d"
    ∧ chooseCore ["a", "b", "c", "d"] 4 2 10 ≠ "b" := by
  have h : chooseCore ["a", "b", "c", "d"] 4 2 10 = "d" := by
    unfold chooseCore
    rw [if_neg (by simp)]
    norm_num [truncToUsize, ratTrunc, usizeSub1, usizeSize]
  exact ⟨h, by rw [h]; decide⟩

/-- C10 counterexample: the two `choose` implementations disagree at
icons `["a", "b", "c", "d"]`, `(value, min, max) = (4, 2, 10)`: the
ramp.rs version clamps the proportion 1/4 up to `min = 2` and returns
`"d"`, the utils.rs version returns `"b"`. -/
theorem choose_impls_differ :
    chooseCore ["a", "b", "c", "d"] 4 2 10 = "d"
    ∧ chooseUtils ["a", "b", "c", "d"] 4 2 10 = "b"
    ∧ chooseCore ["a", "b", "c", "d"] 4 2 10 ≠
        chooseUtils ["a", "b", "c", "d"] 4 2 10 := by
  have h1 : chooseCore ["a", "b", "c", "d"] 4 2 10 = "d" := by
    unfold chooseCore
    rw [if_neg (by simp)]
    norm_num [truncToUsize, ratTrunc, usizeSub1, usizeSize]
  have h2 : chooseUtils ["a", "b", "c", "d"] 4 2 10 = "b" := by
    unfold chooseUtils
    norm_num [truncToUsize, ratTrunc, usizeSub1, usizeSize]
  exact ⟨h1, h2, by rw [h1, h2]; decide⟩

/-- C10 amended: the two implementations agree on every input with at
least one icon and `min ≠ max` on which the ramp.rs clamp is inactive,
i.e. whenever the proportion `(value - min) / (max - min)` already lies
between `min` and `max`. -/
theorem choose_impls_agree (icons : List String) (value lo hi : ℚ)
    (hne : icons ≠ []) (hlh : lo ≠ hi)
    (h1 : lo ≤ (value - lo) / (hi - lo))
    (h2 : (value - lo) / (hi - lo) ≤ hi) :
    chooseCore icons value lo hi = chooseUtils icons value lo hi := by
  unfold chooseCore chooseUtils
  rw [if_neg hne]
  simp only [if_neg (not_lt.mpr h1), if_neg (not_lt.mpr h2)]

/-- C10 witness for the amended theorem at a concrete input. -/
theorem choose_impls_agree_witness :
    chooseCore ["a", "b"] 1 0 2 = chooseUtils ["a", "b"] 1 0 2
    ∧ chooseCore ["a", "b"] 1 0 2 = "b" :=
  ⟨choose_impls_agree ["a", "b"] 1 0 2 (by simp) (by norm_num)
      (by norm_num) (by norm_num),
    by
      unfold chooseCore
      rw [if_neg (by simp)]
      norm_num [truncToUsize, ratTrunc, usizeSub1, usizeSize]⟩

/-- C3: the code contradicts the claimed invariant. Handling "hide" sets
`mapped` to `true` (bar.rs:582) while unmapping the window, so `mapped`
no longer equals the window map state, and starting from an unmapped bar
with `mapped = false`, "toggle" applied twice leaves `mapped = true`
instead of restoring `false`. -/
theorem ipc_hide_mapped_divergence :
    ((handleIpcEvent wBarEmpty "hide").1.mapped = true
      ∧ (handleIpcEvent wBarEmpty "hide").1.winMapped = false)
    ∧ (handleIpcEvent (handleIpcEvent wBarUnmapped "toggle").1
        "toggle").1.mapped = true
    ∧ wBarUnmapped.mapped = false := by
  refine ⟨⟨rfl, rfl⟩, rfl, rfl⟩

/-- Latch updates keep every visibility flag (only `last_status` moves). -/
theorem updateLatches_map_visible (ps : List Panel) (ss : List PanelStatus)
    (h : ps.length = ss.length) :
    (updateLatches ps ss).map Panel.visible = ps.map Panel.visible := by
  induction ps generalizing ss with
  | nil => cases ss <;> simp [updateLatches]
  | cons p pt ih =>
    cases ss with
    | nil => simp at h
    | cons s st =>
      simp only [List.length_cons, Nat.succ.injEq] at h
      simp [updateLatches, ih st h]

/-- Placement keeps every visibility flag (only `x` moves). -/
theorem placeRun_map_visible (ps : List Panel) :
    ∀ (ss : List PanelStatus) (c : ℚ),
      (placeRun c ps ss).1.map Panel.visible = ps.map Panel.visible := by
  induction ps with
  | nil => intro ss c; cases ss <;> simp [placeRun]
  | cons p pt ih =>
    intro ss c
    cases ss with
    | nil => simp [placeRun]
    | cons s st =>
      by_cases hs : s = PanelStatus.shown
      · cases hdi : p.drawInfo <;> simp [placeRun, hs, hdi, ih]
      · simp [placeRun, hs, ih]

/-- Latch updates keep the region length when lengths agree. -/
theorem updateLatches_length (ps : List Panel) (ss : List PanelStatus)
    (h : ps.length = ss.length) :
    (updateLatches ps ss).length = ps.length := by
  induction ps generalizing ss with
  | nil => cases ss <;> simp [updateLatches]
  | cons p pt ih =>
    cases ss with
    | nil => simp at h
    | cons s st =>
      simp only [List.length_cons, Nat.succ.injEq] at h
      simp [updateLatches, ih st h]

/-- Placement keeps the region length. -/
theorem placeRun_length (ps : List Panel) :
    ∀ (ss : List PanelStatus) (c : ℚ),
      (placeRun c ps ss).1.length = ps.length := by
  induction ps with
  | nil => intro ss c; cases ss <;> simp [placeRun]
  | cons p pt ih =>
    intro ss c
    cases ss with
    | nil => simp [placeRun]
    | cons s st =>
      by_cases hs : s = PanelStatus.shown
      · cases hdi : p.drawInfo <;> simp [placeRun, hs, hdi, ih]
      · simp [placeRun, hs, ih]

/-- The dependence resolver returns one status per panel. -/
theorem applyDependence_length (ps : List Panel) :
    (applyDependence ps).length = ps.length := by
  simp [applyDependence]

/-- The pass `redraw_left` keeps all visibility flags. -/
theorem redrawLeft_visible (bar : Bar) :
    visibleFlags (redrawLeft bar) = visibleFlags bar := by
  unfold visibleFlags redrawLeft processShowHide
  simp [placeRun_map_visible,
    updateLatches_map_visible _ _ (applyDependence_length _).symm]

/-- The pass `redraw_right` keeps all visibility flags when the status list it is
given (or computes) matches the right region's length. -/
theorem redrawRight_visible (bar : Bar) (standalone : Bool)
    (ss? : Option (List PanelStatus))
    (h : (ss?.getD (applyDependence bar.rightPanels)).length =
      bar.rightPanels.length) :
    visibleFlags (redrawRight bar standalone ss?) = visibleFlags bar := by
  unfold visibleFlags redrawRight processShowHide
  simp [placeRun_map_visible, updateLatches_map_visible _ _ h.symm]

/-- The pass `redraw_center_right` keeps all visibility flags. -/
theorem redrawCenterRight_visible (bar : Bar) (standalone : Bool) :
    visibleFlags (redrawCenterRight bar standalone) = visibleFlags bar := by
  have h1 : (applyDependence bar.rightPanels).length =
      bar.rightPanels.length := applyDependence_length _
  have h2 : (updateLatches bar.rightPanels
      (applyDependence bar.rightPanels)).length = bar.rightPanels.length :=
    updateLatches_length _ _ h1.symm
  have h3 : List.map Panel.visible
      (updateLatches
        (updateLatches bar.rightPanels (applyDependence bar.rightPanels))
        (applyDependence bar.rightPanels)) =
      List.map Panel.visible bar.rightPanels := by
    rw [updateLatches_map_visible _ _ (by rw [h2, h1]),
      updateLatches_map_visible _ _ h1.symm]
  unfold visibleFlags redrawCenterRight redrawRight processShowHide
  simp [placeRun_map_visible, h3,
    updateLatches_map_visible _ _
      (applyDependence_length bar.centerPanels).symm]

/-- Setting an entry of a list to the value it already holds is the
identity. -/
theorem list_set_self {α : Type} (l : List α) :
    ∀ (n : Nat) (b : α), l.get? n = some b → l.set n b = l := by
  induction l with
  | nil => intro n b h; simp at h
  | cons a t ih =>
    intro n b h
    cases n with
    | zero =>
      simp only [List.get?_cons_zero, Option.some.injEq] at h
      simp [h]
    | succ m =>
      simp only [List.get?_cons_succ] at h
      simp [List.set, ih m b h]

/-- Running `handle_panel_event` on a message whose regex match addresses left
index 3 with a known verb: the addressed panel (when it exists) becomes
`t` and the left region is repainted. -/
theorem handlePanelEvent_l3 (bar : Bar) (p : Panel) (msg verb : List Char)
    (t : Panel) (hre : regexFind msg = some ('l', ['3'], verb))
    (h3 : bar.leftPanels.get? 3 = some p)
    (hverb :
      (if verb = "show".toList then some { p with visible := true }
       else if verb = "hide".toList then some { p with visible := false }
       else if verb = "toggle".toList then
        some { p with visible := !p.visible }
       else Option.none) = some t) :
    panelEventBar bar msg =
      redrawLeft { bar with leftPanels := bar.leftPanels.set 3 t } := by
  unfold panelEventBar handlePanelEvent
  rw [hre]
  have hlt : ¬ usizeSize ≤ natOfDigits ['3'] := by decide
  have hn : natOfDigits ['3'] = 3 := by decide
  have hlt3 : ¬ usizeSize ≤ 3 := by decide
  simp only [hlt, if_false, hn, Char.reduceBEq, if_true, h3, hverb, reduceIte,
    if_neg hlt3]

/-- Running `handle_panel_event` on a message whose regex match addresses left
index 3 when the left region has no index 3: no panel and no state is
touched. -/
theorem handlePanelEvent_l3_missing (bar : Bar) (msg verb : List Char)
    (hre : regexFind msg = some ('l', ['3'], verb))
    (h3 : bar.leftPanels.get? 3 = Option.none) :
    panelEventBar bar msg = bar := by
  unfold panelEventBar handlePanelEvent
  rw [hre]
  have hlt : ¬ usizeSize ≤ natOfDigits ['3'] := by decide
  have hn : natOfDigits ['3'] = 3 := by decide
  have hlt3 : ¬ usizeSize ≤ 3 := by decide
  simp only [hlt, if_false, hn, Char.reduceBEq, if_true, h3, reduceIte,
    if_neg hlt3]

/-- The visibility flags after an `l3` command with target panel `t`. -/
theorem visibleFlags_l3 (bar : Bar) (p : Panel) (msg verb : List Char)
    (t : Panel) (hre : regexFind msg = some ('l', ['3'], verb))
    (h3 : bar.leftPanels.get? 3 = some p)
    (hverb :
      (if verb = "show".toList then some { p with visible := true }
       else if verb = "hide".toList then some { p with visible := false }
       else if verb = "toggle".toList then
        some { p with visible := !p.visible }
       else Option.none) = some t) :
    visibleFlags (panelEventBar bar msg)
      = ((bar.leftPanels.map Panel.visible).set 3 t.visible,
          bar.centerPanels.map Panel.visible,
          bar.rightPanels.map Panel.visible) := by
  rw [handlePanelEvent_l3 bar p msg verb t hre h3 hverb, redrawLeft_visible]
  unfold visibleFlags
  simp [List.map_set]

/-- C9: `#l3.hide` sets the visibility flag of left panel 3 to false,
`#l3.show` sets it to true, and `#l3.toggle` applied twice leaves every
panel's visibility flag as it was (the repaints that follow the commands
never touch visibility). -/
theorem panel_visibility_addressing :
    (∀ bar p, bar.leftPanels.get? 3 = some p →
      (panelEventBar bar ("l3.hide".toList)).leftPanels.map Panel.visible
        = (bar.leftPanels.map Panel.visible).set 3 false)
    ∧ (∀ bar p, bar.leftPanels.get? 3 = some p →
      (panelEventBar bar ("l3.show".toList)).leftPanels.map Panel.visible
        = (bar.leftPanels.map Panel.visible).set 3 true)
    ∧ (∀ bar : Bar, visibleFlags
        (panelEventBar (panelEventBar bar ("l3.toggle".toList))
          ("l3.toggle".toList)) = visibleFlags bar) := by
  have hreH : regexFind ("l3.hide".toList) =
      some ('l', ['3'], "hide".toList) := by decide
  have hreS : regexFind ("l3.show".toList) =
      some ('l', ['3'], "show".toList) := by decide
  have hreT : regexFind ("l3.toggle".toList) =
      some ('l', ['3'], "toggle".toList) := by decide
  refine ⟨?_, ?_, ?_⟩
  · intro bar p h3
    have h := visibleFlags_l3 bar p _ _ { p with visible := false } hreH h3
      (by simp)
    exact congrArg Prod.fst h
  · intro bar p h3
    have h := visibleFlags_l3 bar p _ _ { p with visible := true } hreS h3
      (by simp)
    exact congrArg Prod.fst h
  · intro bar
    cases h3 : bar.leftPanels.get? 3 with
    | none =>
      rw [handlePanelEvent_l3_missing bar _ _ hreT h3,
        handlePanelEvent_l3_missing bar _ _ hreT h3]
    | some p =>
      have h1 := visibleFlags_l3 bar p _ _ { p with visible := !p.visible }
        hreT h3 (by simp)
      set bar1 := panelEventBar bar ("l3.toggle".toList) with hbar1
      have hlen3 : 3 < bar.leftPanels.length := by
        by_contra hc
        rw [List.get?_eq_getElem?, List.getElem?_eq_none (by omega)] at h3
        cases h3
      have hflags1 : bar1.leftPanels.map Panel.visible =
          (bar.leftPanels.map Panel.visible).set 3 (!p.visible) := by
        have := congrArg Prod.fst h1
        simpa [visibleFlags] using this
      have hcen1 : bar1.centerPanels.map Panel.visible =
          bar.centerPanels.map Panel.visible := by
        have := congrArg (fun t => t.2.1) h1
        simpa [visibleFlags] using this
      have hrig1 : bar1.rightPanels.map Panel.visible =
          bar.rightPanels.map Panel.visible := by
        have := congrArg (fun t => t.2.2) h1
        simpa [visibleFlags] using this
      have hlen1 : bar1.leftPanels.length = bar.leftPanels.length := by
        have := congrArg List.length hflags1
        simpa using this
      have h3lt1 : 3 < bar1.leftPanels.length := by omega
      have h3q : bar1.leftPanels.get? 3 =
          some (bar1.leftPanels.get ⟨3, h3lt1⟩) := List.get?_eq_get h3lt1
      have hqv : (bar1.leftPanels.get ⟨3, h3lt1⟩).visible = !p.visible := by
        have hm2 : (bar1.leftPanels.map Panel.visible)[3]? =
            some (bar1.leftPanels.get ⟨3, h3lt1⟩).visible := by
          rw [List.getElem?_map, ← List.get?_eq_getElem?, h3q]
          rfl
        rw [hflags1] at hm2
        rw [List.getElem?_set_self (by simpa using hlen3)] at hm2
        exact (Option.some.inj hm2).symm
      have h2 := visibleFlags_l3 bar1 (bar1.leftPanels.get ⟨3, h3lt1⟩) _ _
        { bar1.leftPanels.get ⟨3, h3lt1⟩ with
          visible := !(bar1.leftPanels.get ⟨3, h3lt1⟩).visible }
        hreT h3q (by simp)
      have hg : (bar.leftPanels.map Panel.visible).get? 3 =
          some p.visible := by
        rw [List.get?_eq_getElem?, List.getElem?_map, ← List.get?_eq_getElem?,
          h3]
        rfl
      have hv2 : (!(bar1.leftPanels.get ⟨3, h3lt1⟩).visible) = p.visible := by
        rw [hqv, Bool.not_not]
      have h2a : visibleFlags (panelEventBar bar1 ("l3.toggle".toList)) =
          ((bar1.leftPanels.map Panel.visible).set 3
            (!(bar1.leftPanels.get ⟨3, h3lt1⟩).visible),
            bar1.centerPanels.map Panel.visible,
            bar1.rightPanels.map Panel.visible) := by
        simpa using h2
      rw [h2a, hflags1, hcen1, hrig1, List.set_set, hv2,
        list_set_self _ 3 p.visible hg]
      rfl

/-- C9 witness: on a bar with four visible left panels, `#l3.hide` leaves
`[true, true, true, false]`. -/
theorem panel_visibility_addressing_witness :
    (panelEventBar wBar9 ("l3.hide".toList)).leftPanels.map Panel.visible
      = [true, true, true, false] := by
  have h := panel_visibility_addressing.1 wBar9 (mkShown "d" 10) rfl
  rw [h]
  rfl

/-- Latch updates do not change the width sums (only `last_status` moves). -/
theorem shownWidths_updateLatches (ps : List Panel) :
    ∀ ss : List PanelStatus,
      shownWidths (updateLatches ps ss) ss = shownWidths ps ss := by
  induction ps with
  | nil => intro ss; cases ss <;> rfl
  | cons p pt ih =>
    intro ss
    cases ss with
    | nil => rfl
    | cons s st => simp [updateLatches, shownWidths, ih]

/-- Width sums are nonnegative when every draw info width is. -/
theorem shownWidths_sum_nonneg : ∀ (ps : List Panel)
    (ss : List PanelStatus),
    (∀ p ∈ ps, ∀ d, p.drawInfo = some d → 0 ≤ d.width) →
    0 ≤ (shownWidths ps ss).sum := by
  intro ps
  induction ps with
  | nil => intro ss _; cases ss <;> simp [shownWidths]
  | cons p pt ih =>
    intro ss hw
    cases ss with
    | nil => simp [shownWidths]
    | cons s st =>
      have h1 : 0 ≤ (if s = PanelStatus.shown then
          (p.drawInfo.map PanelDrawInfo.width).toList else []).sum := by
        split_ifs
        · cases hd : p.drawInfo with
          | none => simp
          | some d => simpa using hw p (by simp) d hd
        · simp
      have h2 := ih st (fun q hq d hd => hw q (by simp [hq]) d hd)
      simp only [shownWidths, List.sum_append]
      exact add_nonneg h1 h2

/-- The placement cursor ends at its start plus the shown width sum. -/
theorem placeRun_snd : ∀ (ps : List Panel) (ss : List PanelStatus) (c : ℚ),
    (placeRun c ps ss).2 = c + ((shownWidths ps ss).sum : ℚ) := by
  intro ps
  induction ps with
  | nil => intro ss c; cases ss <;> simp [placeRun, shownWidths]
  | cons p pt ih =>
    intro ss c
    cases ss with
    | nil => simp [placeRun, shownWidths]
    | cons s st =>
      by_cases hs : s = PanelStatus.shown
      · cases hd : p.drawInfo with
        | none => simp [placeRun, hs, hd, shownWidths, ih]
        | some d =>
          simp [placeRun, hs, hd, shownWidths, ih]
          try push_cast
          try ring
      · simp [placeRun, hs, shownWidths, ih]

/-- The four-way center placement: the start never moves left of the left
cursor, and outside the overflow state it leaves the internal margin on
the left and ends (after the center block) at least the internal margin
before the usable right boundary. -/
theorem centerPlacement_spec (L right0 mid m C : ℚ) (hm : 0 ≤ m) :
    L ≤ (centerPlacement L right0 mid m C).1
    ∧ ((centerPlacement L right0 mid m C).2 ≠ CenterState.unknown →
        m ≤ (centerPlacement L right0 mid m C).1 - L
        ∧ (centerPlacement L right0 mid m C).1 + C ≤ right0 - m) := by
  unfold centerPlacement
  split_ifs with h1 h2 h3
  · exact ⟨by dsimp only; linarith, fun hc => absurd rfl hc⟩
  · exact ⟨by dsimp only; linarith,
      fun _ => ⟨by dsimp only; linarith, by dsimp only; linarith⟩⟩
  · exact ⟨by dsimp only; linarith,
      fun _ => ⟨by dsimp only; linarith, by dsimp only; linarith⟩⟩
  · exact ⟨by dsimp only; linarith,
      fun _ => ⟨by dsimp only; linarith, by dsimp only; linarith⟩⟩

/-- The right edge leaves at least the internal margin after the center
cursor whenever the right margin is at most the internal margin and the
center cursor stopped an internal margin before the usable boundary. -/
theorem rightEdge_gap (W center1 m mr S : ℚ) (hmr : mr ≤ m)
    (hc : center1 ≤ W - S - 2 * m) :
    m ≤ rightEdge W center1 m (S + mr) - center1 := by
  unfold rightEdge
  split_ifs with h
  · linarith
  · linarith

/-- The extents produced by one `redraw_left` pass. -/
theorem redrawLeft_extents (bar : Bar) :
    (redrawLeft bar).extents.left = bar.margins.left +
      ((shownWidths bar.leftPanels (applyDependence bar.leftPanels)).sum : ℚ)
    ∧ (redrawLeft bar).extents.center = bar.extents.center
    ∧ (redrawLeft bar).centerPanels = bar.centerPanels
    ∧ (redrawLeft bar).rightPanels = bar.rightPanels
    ∧ (redrawLeft bar).margins = bar.margins
    ∧ (redrawLeft bar).width = bar.width := by
  unfold redrawLeft processShowHide
  simp [placeRun_snd, shownWidths_updateLatches]

/-- The extents produced by one standalone `redraw_right` pass. -/
theorem redrawRight_extents (bar : Bar) (s : Bool) :
    (redrawRight bar s Option.none).extents.right =
      rightEdge (bar.width : ℚ) bar.extents.center.2 bar.margins.internal
        (((shownWidths bar.rightPanels
            (applyDependence bar.rightPanels)).sum : ℚ) + bar.margins.right)
    ∧ (redrawRight bar s Option.none).extents.center = bar.extents.center
    ∧ (redrawRight bar s Option.none).centerState = bar.centerState := by
  unfold redrawRight processShowHide
  simp [shownWidths_updateLatches]

/-- The extents produced by one `redraw_center_right` pass, in terms of
the placement helpers. -/
theorem redrawCenterRight_extents (bar : Bar) (s : Bool) :
    (redrawCenterRight bar s).extents.left = bar.extents.left
    ∧ (redrawCenterRight bar s).extents.center.1 =
        (centerPlacement bar.extents.left
          ((bar.width : ℚ) - ((shownWidths bar.rightPanels
              (applyDependence bar.rightPanels)).sum : ℚ)
            - bar.margins.internal)
          ((bar.width.tdiv 2 : Int) : ℚ) bar.margins.internal
          ((shownWidths bar.centerPanels
            (applyDependence bar.centerPanels)).sum : ℚ)).1
    ∧ (redrawCenterRight bar s).extents.center.2 =
        (redrawCenterRight bar s).extents.center.1 +
          ((shownWidths bar.centerPanels
            (applyDependence bar.centerPanels)).sum : ℚ)
    ∧ (redrawCenterRight bar s).extents.right =
        rightEdge (bar.width : ℚ) ((redrawCenterRight bar s).extents.center.2)
          bar.margins.internal
          (((shownWidths bar.rightPanels
              (applyDependence bar.rightPanels)).sum : ℚ) + bar.margins.right)
    ∧ (redrawCenterRight bar s).centerState =
        (centerPlacement bar.extents.left
          ((bar.width : ℚ) - ((shownWidths bar.rightPanels
              (applyDependence bar.rightPanels)).sum : ℚ)
            - bar.margins.internal)
          ((bar.width.tdiv 2 : Int) : ℚ) bar.margins.internal
          ((shownWidths bar.centerPanels
            (applyDependence bar.centerPanels)).sum : ℚ)).2 := by
  unfold redrawCenterRight redrawRight processShowHide
  simp [placeRun_snd, shownWidths_updateLatches]

/-- The layout invariant after one `redraw_center_right` pass, under
nonnegative center widths, a nonnegative internal margin, and a right
margin at most the internal margin. -/
theorem layout_invariant_core (bar : Bar) (s : Bool)
    (hm : 0 ≤ bar.margins.internal)
    (hmr : bar.margins.right ≤ bar.margins.internal)
    (hcw : ∀ p ∈ bar.centerPanels, ∀ d, p.drawInfo = some d → 0 ≤ d.width) :
    (redrawCenterRight bar s).extents.left ≤
      (redrawCenterRight bar s).extents.center.1
    ∧ (redrawCenterRight bar s).extents.center.1 ≤
      (redrawCenterRight bar s).extents.center.2
    ∧ ((redrawCenterRight bar s).centerState ≠ CenterState.unknown →
        bar.margins.internal ≤ (redrawCenterRight bar s).extents.center.1 -
            (redrawCenterRight bar s).extents.left
        ∧ bar.margins.internal ≤ (redrawCenterRight bar s).extents.right -
            (redrawCenterRight bar s).extents.center.2) := by
  obtain ⟨hL, hc1, hc2, hr, hst⟩ := redrawCenterRight_extents bar s
  have hC : (0 : ℚ) ≤ ((shownWidths bar.centerPanels
      (applyDependence bar.centerPanels)).sum : ℚ) := by
    exact_mod_cast shownWidths_sum_nonneg bar.centerPanels
      (applyDependence bar.centerPanels) hcw
  obtain ⟨hp1, hp2⟩ := centerPlacement_spec bar.extents.left
    ((bar.width : ℚ) - ((shownWidths bar.rightPanels
        (applyDependence bar.rightPanels)).sum : ℚ) - bar.margins.internal)
    ((bar.width.tdiv 2 : Int) : ℚ) bar.margins.internal
    ((shownWidths bar.centerPanels
      (applyDependence bar.centerPanels)).sum : ℚ) hm
  refine ⟨?_, ?_, ?_⟩
  · rw [hL, hc1]
    exact hp1
  · rw [hc2]
    linarith
  · intro hunk
    rw [hst] at hunk
    obtain ⟨hg1, hg2⟩ := hp2 hunk
    refine ⟨?_, ?_⟩
    · rw [hc1, hL]
      exact hg1
    · rw [hr, hc2, hc1]
      apply rightEdge_gap _ _ _ _ _ hmr
      linarith

/-- C2 amended: after any successful `redraw_bar` or `redraw_center_right`
pass (the passes that recompute the center), with nonnegative center
widths, nonnegative internal margin and a right margin at most the
internal margin, `extents.left ≤ extents.center.0 ≤ extents.center.1`,
and in non-overflow center states both region gaps are at least
`margins.internal`. -/
theorem layout_monotonicity_amended (bar : Bar) (s : Bool)
    (hm : 0 ≤ bar.margins.internal)
    (hmr : bar.margins.right ≤ bar.margins.internal)
    (hcw : ∀ p ∈ bar.centerPanels, ∀ d, p.drawInfo = some d → 0 ≤ d.width) :
    ((redrawCenterRight bar s).extents.left ≤
        (redrawCenterRight bar s).extents.center.1
      ∧ (redrawCenterRight bar s).extents.center.1 ≤
        (redrawCenterRight bar s).extents.center.2
      ∧ ((redrawCenterRight bar s).centerState ≠ CenterState.unknown →
          bar.margins.internal ≤ (redrawCenterRight bar s).extents.center.1 -
              (redrawCenterRight bar s).extents.left
          ∧ bar.margins.internal ≤ (redrawCenterRight bar s).extents.right -
              (redrawCenterRight bar s).extents.center.2))
    ∧ ((redrawBar bar).extents.left ≤ (redrawBar bar).extents.center.1
      ∧ (redrawBar bar).extents.center.1 ≤ (redrawBar bar).extents.center.2
      ∧ ((redrawBar bar).centerState ≠ CenterState.unknown →
          bar.margins.internal ≤ (redrawBar bar).extents.center.1 -
              (redrawBar bar).extents.left
          ∧ bar.margins.internal ≤ (redrawBar bar).extents.right -
              (redrawBar bar).extents.center.2)) :=
  ⟨layout_invariant_core bar s hm hmr hcw,
    layout_invariant_core (redrawLeft bar) false hm hmr hcw⟩

/-- C2 witness: the amended invariant applied to the scenario-1 bar with
balanced margins. -/
theorem layout_monotonicity_amended_witness :
    (redrawBar wBarBalanced).extents.left ≤
      (redrawBar wBarBalanced).extents.center.1
    ∧ (redrawBar wBarBalanced).extents.center.1 ≤
      (redrawBar wBarBalanced).extents.center.2 :=
  have h := layout_monotonicity_amended wBarBalanced false
    (by norm_num [wBarBalanced, wBarScenario1, wBarEmpty])
    (by norm_num [wBarBalanced, wBarScenario1, wBarEmpty])
    (by
      intro p hp d hd
      simp only [wBarBalanced, wBarScenario1, wBarEmpty,
        List.mem_singleton] at hp
      subst hp
      simp only [mkShown] at hd
      injection hd with h
      subst h
      decide)
  ⟨h.2.1, h.2.2.1⟩

/-- C2 counterexample: the claim as stated fails on three passes. A
standalone `redraw_left` (also reached from the IPC handler) grows
`extents.left` past a stale center start; a `redraw_center_right` with
right margin 8 > internal margin 5 leaves only a gap of 2 between the
center cursor and the right region in the non-overflow `Left` state; a
standalone `redraw_right` likewise leaves a gap of 2 in the `Center`
state. -/
theorem layout_monotonicity_counterexample :
    ¬ ((redrawLeft wBarWideLeft).extents.left ≤
        (redrawLeft wBarWideLeft).extents.center.1)
    ∧ ((redrawCenterRight wBarRightMargin true).centerState ≠
        CenterState.unknown
      ∧ ¬ (wBarRightMargin.margins.internal ≤
          (redrawCenterRight wBarRightMargin true).extents.right -
            (redrawCenterRight wBarRightMargin true).extents.center.2))
    ∧ ((redrawRight wBarRightOnly true Option.none).centerState ≠
        CenterState.unknown
      ∧ ¬ (wBarRightOnly.margins.internal ≤
          (redrawRight wBarRightOnly true Option.none).extents.right -
            (redrawRight wBarRightOnly true Option.none).extents.center.2)) := by
  refine ⟨?_, ?_, ?_⟩
  · obtain ⟨hl, hc, -⟩ := redrawLeft_extents wBarWideLeft
    rw [hl, hc]
    have hsum : shownWidths wBarWideLeft.leftPanels
        (applyDependence wBarWideLeft.leftPanels) = [600] := by decide
    rw [hsum]
    norm_num [wBarWideLeft, wBarEmpty]
  · obtain ⟨hL, hc1, hc2, hr, hst⟩ :=
      redrawCenterRight_extents wBarRightMargin true
    have hCsum : shownWidths wBarRightMargin.centerPanels
        (applyDependence wBarRightMargin.centerPanels) = [400] := by decide
    have hSsum : shownWidths wBarRightMargin.rightPanels
        (applyDependence wBarRightMargin.rightPanels) = [300] := by decide
    rw [hCsum, hSsum] at hc1 hst
    rw [hCsum] at hc2
    rw [hSsum] at hr
    have htd : wBarRightMargin.width.tdiv 2 = 500 := by decide
    rw [htd] at hc1 hst
    have hcp : centerPlacement wBarRightMargin.extents.left
        ((wBarRightMargin.width : ℚ) - (([300] : List Int).sum : ℚ)
          - wBarRightMargin.margins.internal)
        ((500 : Int) : ℚ) wBarRightMargin.margins.internal
        (([400] : List Int).sum : ℚ) = (290, CenterState.left) := by
      unfold centerPlacement
      norm_num [wBarRightMargin, wBarEmpty]
    rw [hcp] at hc1 hst
    simp only at hc1 hst
    have hc2n : (redrawCenterRight wBarRightMargin true).extents.center.2 =
        690 := by
      rw [hc2, hc1]
      norm_num
    have hrn : (redrawCenterRight wBarRightMargin true).extents.right =
        692 := by
      rw [hr, hc2n]
      unfold rightEdge
      norm_num [wBarRightMargin, wBarEmpty]
    refine ⟨by rw [hst]; simp, ?_⟩
    rw [hrn, hc2n]
    norm_num [wBarRightMargin, wBarEmpty]
  · obtain ⟨hr, hc, hst⟩ := redrawRight_extents wBarRightOnly true
    have hSsum : shownWidths wBarRightOnly.rightPanels
        (applyDependence wBarRightOnly.rightPanels) = [490] := by decide
    rw [hSsum] at hr
    have hrn : (redrawRight wBarRightOnly true Option.none).extents.right =
        502 := by
      rw [hr]
      unfold rightEdge
      norm_num [wBarRightOnly, wBarEmpty]
    refine ⟨by rw [hst]; simp [wBarRightOnly, wBarEmpty], ?_⟩
    rw [hrn, hc]
    norm_num [wBarRightOnly, wBarEmpty]

/-- On a nonnegative rational, f64 truncation is the floor. -/
theorem ratTrunc_eq_floor (q : ℚ) (hq : 0 ≤ q) : ratTrunc q = ⌊q⌋ := by
  unfold ratTrunc
  rw [Rat.floor_def]
  exact Int.tdiv_eq_ediv (Rat.num_nonneg.mpr hq) (by positivity)

/-- List `find?` returns the first element satisfying the predicate: the list
splits at the found element, with everything before it failing. -/
theorem find?_first {α : Type} (p : α → Bool) :
    ∀ (l : List α) (a : α), l.find? p = some a →
      ∃ l1 l2, l = l1 ++ a :: l2 ∧ (∀ b ∈ l1, p b = false) ∧ p a = true := by
  intro l
  induction l with
  | nil => intro a h; simp [List.find?] at h
  | cons x xs ih =>
    intro a h
    by_cases hx : p x
    · rw [List.find?_cons_of_pos _ hx] at h
      obtain rfl : x = a := by injection h
      exact ⟨[], xs, rfl, by intro b hb; simp at hb, hx⟩
    · rw [List.find?_cons_of_neg _ (by simpa using hx)] at h
      obtain ⟨l1, l2, heq, hall, hpa⟩ := ih a h
      refine ⟨x :: l1, l2, by rw [heq]; rfl, ?_, hpa⟩
      intro b hb
      rcases List.mem_cons.mp hb with rfl | hb
      · simpa using hx
      · exact hall b hb

/-- In range 1..=5, the button decoder always succeeds. -/
theorem tryParse_total (b : Nat) (r : Bool) (h1 : 1 ≤ b) (h2 : b ≤ 5) :
    ∃ mb, MouseButton.tryParse b r = Except.ok mb := by
  interval_cases b <;> cases r <;> exact ⟨_, rfl⟩

/-- C6 amended: for a button detail in 1..=5, at most one panel receives
the event — the first panel with draw info in left-center-right order
whose inclusive x-range contains the click — and the delivered
coordinate satisfies `0 ≤ x' ≤ width` (the upper bound is attained when
the click lands exactly on the panel's right edge, so the claimed strict
bound `x' < width` is weakened to `≤`). Panel x-coordinates are assumed
nonnegative and the click within i16 range, so the i16 cast and
subtraction do not wrap. -/
theorem mouse_dispatch_amended (bar : Bar) (button : Nat) (x y : Int)
    (hx1 : 0 ≤ x) (hx2 : x ≤ 32767)
    (hpx : ∀ p ∈ allPanels bar, 0 ≤ p.x) :
    ∀ n b x1 y1, dispatchMouse bar button x y = some (n, b, x1, y1) →
      y1 = y
      ∧ ∃ l1 l2 p d,
        ((allPanels bar).filter fun q => q.drawInfo.isSome) = l1 ++ p :: l2
        ∧ (∀ q ∈ l1, containsX q x = false)
        ∧ containsX p x = true
        ∧ p.name = n ∧ p.drawInfo = some d
        ∧ 0 ≤ x1 ∧ x1 ≤ d.width := by
  intro n b x1 y1 h
  unfold dispatchMouse at h
  by_cases hb : 1 ≤ button ∧ button ≤ 5
  case neg => rw [if_neg hb] at h; cases h
  rw [if_pos hb] at h
  cases hfind : ((allPanels bar).filter fun q => q.drawInfo.isSome).find?
      (fun p => containsX p x) with
  | none => rw [hfind] at h; cases h
  | some p =>
    rw [hfind] at h
    dsimp only at h
    by_cases hep : p.hasEndpoint
    case neg => rw [if_neg hep] at h; cases h
    rw [if_pos hep] at h
    obtain ⟨mb, hmb⟩ := tryParse_total button bar.reverseScroll hb.1 hb.2
    rw [hmb] at h
    obtain ⟨hn, hbb, hx1, hy1⟩ : p.name = n ∧ mb = b ∧
        wrap16 (x - i16Sat p.x) = x1 ∧ y = y1 := by
      have := Option.some.inj h
      exact ⟨congrArg Prod.fst this,
        congrArg (fun t => t.2.1) this,
        congrArg (fun t => t.2.2.1) this,
        congrArg (fun t => t.2.2.2) this⟩
    obtain ⟨l1, l2, heq, hall, hpa⟩ := find?_first _ _ _ hfind
    have hpmemf : p ∈ (allPanels bar).filter fun q => q.drawInfo.isSome := by
      rw [heq]
      exact List.mem_append.mpr (Or.inr (List.mem_cons_self _ _))
    have hpmem : p ∈ allPanels bar := (List.mem_filter.mp hpmemf).1
    have hpsome : p.drawInfo.isSome := by
      simpa using (List.mem_filter.mp hpmemf).2
    obtain ⟨d, hd⟩ := Option.isSome_iff_exists.mp hpsome
    have hpx0 : 0 ≤ p.x := hpx p hpmem
    have hcont := hpa
    rw [containsX] at hcont
    simp only [Bool.and_eq_true, decide_eq_true_eq, hd, Option.map_some,
      Option.getD_some] at hcont
    obtain ⟨hle, hge0⟩ := hcont
    have hge : (x : ℚ) ≤ p.x + (d.width : ℚ) := by simpa using hge0
    have hfl : ratTrunc p.x = ⌊p.x⌋ := ratTrunc_eq_floor p.x hpx0
    have hfl0 : 0 ≤ ⌊p.x⌋ := Int.floor_nonneg.mpr hpx0
    have hflx : ⌊p.x⌋ ≤ x := by
      have h1 : (⌊p.x⌋ : ℚ) ≤ (x : ℚ) := le_trans (Int.floor_le p.x) hle
      exact_mod_cast h1
    have hsat : i16Sat p.x = ⌊p.x⌋ := by
      unfold i16Sat
      rw [hfl]
      rw [min_eq_right (by omega), max_eq_right (by omega)]
    have hwrap : wrap16 (x - i16Sat p.x) = x - ⌊p.x⌋ := by
      rw [hsat]
      unfold wrap16
      rw [Int.emod_eq_of_lt (by omega) (by omega)]
      omega
    have hup : x - ⌊p.x⌋ ≤ d.width := by
      have h1 : (x : ℚ) < (⌊p.x⌋ : ℚ) + 1 + (d.width : ℚ) := by
        have := Int.lt_floor_add_one p.x
        linarith
      have h2 : x < ⌊p.x⌋ + 1 + d.width := by exact_mod_cast h1
      omega
    refine ⟨hy1.symm, l1, l2, p, d, heq, hall, hpa, hn, hd, ?_, ?_⟩
    · rw [← hx1, hwrap]
      omega
    · rw [← hx1, hwrap]
      exact hup

/-- Dispatch on the one-panel bar delivers the click to it whenever the
click is inside its inclusive range. -/
theorem dispatchMouse_wBarMouse (x : Int) (h1 : (0 : ℚ) ≤ (x : ℚ))
    (h2 : (x : ℚ) ≤ 0 + ((10 : Int) : ℚ)) :
    dispatchMouse wBarMouse 1 x 0 =
      some ("P", MouseButton.left, wrap16 (x - i16Sat 0), 0) := by
  have hc : containsX wPanelMouse x = true := by
    simp only [containsX, wPanelMouse, Bool.and_eq_true, decide_eq_true_eq]
    exact ⟨h1, by simpa using h2⟩
  have hfl : ((allPanels wBarMouse).filter fun q => q.drawInfo.isSome)
      = [wPanelMouse] := by rfl
  have hfind : List.find? (fun p => containsX p x) [wPanelMouse] =
      some wPanelMouse := by
    simp [List.find?_cons, hc]
  unfold dispatchMouse
  rw [if_pos (by norm_num), hfl, hfind]
  rfl

/-- C6 counterexample: clicking at the right edge `x = 10` of the panel
of width 10 at `x = 0` delivers translated coordinate 10, which is not
less than the panel width — the strict bound of the claim fails. -/
theorem mouse_dispatch_counterexample :
    dispatchMouse wBarMouse 1 10 0 = some ("P", MouseButton.left, 10, 0)
    ∧ ¬ ((10 : Int) < 10) := by
  constructor
  · rw [dispatchMouse_wBarMouse 10 (by norm_num) (by norm_num)]
    have : wrap16 (10 - i16Sat 0) = 10 := by decide
    rw [this]
  · omega

/-- C6 witness: the amended theorem at the concrete click x = 5. -/
theorem mouse_dispatch_amended_witness :
    dispatchMouse wBarMouse 1 5 0 = some ("P", MouseButton.left, 5, 0)
    ∧ (0 : Int) = 0 := by
  have heval : dispatchMouse wBarMouse 1 5 0 =
      some ("P", MouseButton.left, 5, 0) := by
    rw [dispatchMouse_wBarMouse 5 (by norm_num) (by norm_num)]
    have : wrap16 (5 - i16Sat 0) = 5 := by decide
    rw [this]
  refine ⟨heval, ?_⟩
  have h := mouse_dispatch_amended wBarMouse 1 5 0 (by norm_num) (by norm_num)
    (by
      intro p hp
      simp only [allPanels, wBarMouse, wBarEmpty, List.append_nil,
        List.mem_singleton] at hp
      subst hp
      norm_num [wPanelMouse])
    "P" MouseButton.left 5 0 heval
  exact h.1

/-- An alternating-from-`l` trace has no two equal consecutive events. -/
theorem altFrom_chain : ∀ (t : List Bool) (l : Bool), altFrom l t →
    List.Chain' (fun a b => a ≠ b) t := by
  intro t
  induction t with
  | nil => intro l _; exact List.chain'_nil
  | cons b t2 ih =>
    intro l h
    obtain ⟨hb, ht⟩ := h
    cases t2 with
    | nil => simp
    | cons c t3 =>
      refine List.chain'_cons.mpr ⟨?_, ih b ht⟩
      rw [ht.1, hb]
      simp

/-- The hook trace of one panel over a status sequence alternates starting
against the initial latch, and its show/hide counts are balanced up to the
initial and final latch values. -/
theorem latchTrace_invariant : ∀ (ss : List PanelStatus) (p : Panel),
    p.drawInfo.isSome →
    altFrom p.lastStatus (latchTrace p ss)
    ∧ (latchTrace p ss).count true + (if p.lastStatus then 1 else 0) =
      (latchTrace p ss).count false +
        (if latchFinal p.lastStatus ss then 1 else 0) := by
  intro ss
  induction ss with
  | nil =>
    intro p hdi
    exact ⟨trivial, by simp [latchTrace, latchFinal]⟩
  | cons s rest ih =>
    intro p hdi
    obtain ⟨d, hd⟩ := Option.isSome_iff_exists.mp hdi
    have hstep : latchTrace p (s :: rest) =
        ((if p.lastStatus ∧ s ≠ PanelStatus.shown then [d] else []).map
            (fun _ => false)
          ++ (if ¬p.lastStatus ∧ s = PanelStatus.shown then [d] else []).map
            (fun _ => true))
        ++ latchTrace { p with lastStatus := s == PanelStatus.shown } rest := by
      simp [latchTrace, processShowHide, collectHidden, collectShown,
        updateLatches, hd]
    have hdi1 : ({ p with lastStatus := s == PanelStatus.shown } :
        Panel).drawInfo.isSome := by simp [hd]
    obtain ⟨ih1, ih2⟩ := ih { p with lastStatus := s == PanelStatus.shown }
      hdi1
    have hfin : latchFinal p.lastStatus (s :: rest) =
        latchFinal (s == PanelStatus.shown) rest := by
      simp [latchFinal]
    rw [hstep, hfin]
    dsimp only at ih1 ih2
    by_cases hl : p.lastStatus = true <;>
      by_cases hs : s = PanelStatus.shown
    · have hsb : (s == PanelStatus.shown) = true := by simp [hs]
      have hevs : ((if p.lastStatus ∧ s ≠ PanelStatus.shown then [d]
          else []).map (fun _ => false)
          ++ (if ¬p.lastStatus ∧ s = PanelStatus.shown then [d] else []).map
            (fun _ => true)) = [] := by
        simp [hl, hs]
      rw [hsb] at ih1 ih2
      rw [hevs, List.nil_append, hsb, hl]
      exact ⟨ih1, ih2⟩
    · have hsb : (s == PanelStatus.shown) = false := by simp [hs]
      have hevs : ((if p.lastStatus ∧ s ≠ PanelStatus.shown then [d]
          else []).map (fun _ => false)
          ++ (if ¬p.lastStatus ∧ s = PanelStatus.shown then [d] else []).map
            (fun _ => true)) = [false] := by
        simp [hl, hs]
      rw [hsb] at ih1 ih2
      rw [hevs, hsb, hl]
      refine ⟨?_, ?_⟩
      · rw [List.singleton_append]
        exact ⟨by simp, ih1⟩
      · rw [List.singleton_append]
        rcases Bool.dichotomy (latchFinal false rest) with hf | hf <;>
          rw [hf] at ih2 ⊢ <;>
          simp [List.count_cons] at ih2 ⊢ <;>
          omega
    · have hlb : p.lastStatus = false := by
        cases hpl : p.lastStatus
        · rfl
        · exact absurd hpl hl
      have hsb : (s == PanelStatus.shown) = true := by simp [hs]
      have hevs : ((if p.lastStatus ∧ s ≠ PanelStatus.shown then [d]
          else []).map (fun _ => false)
          ++ (if ¬p.lastStatus ∧ s = PanelStatus.shown then [d] else []).map
            (fun _ => true)) = [true] := by
        simp [hlb, hs]
      rw [hsb] at ih1 ih2
      rw [hevs, hsb, hlb]
      refine ⟨?_, ?_⟩
      · rw [List.singleton_append]
        exact ⟨by simp, ih1⟩
      · rw [List.singleton_append]
        rcases Bool.dichotomy (latchFinal true rest) with hf | hf <;>
          rw [hf] at ih2 ⊢ <;>
          simp [List.count_cons] at ih2 ⊢ <;>
          omega
    · have hlb : p.lastStatus = false := by
        cases hpl : p.lastStatus
        · rfl
        · exact absurd hpl hl
      have hsb : (s == PanelStatus.shown) = false := by simp [hs]
      have hevs : ((if p.lastStatus ∧ s ≠ PanelStatus.shown then [d]
          else []).map (fun _ => false)
          ++ (if ¬p.lastStatus ∧ s = PanelStatus.shown then [d] else []).map
            (fun _ => true)) = [] := by
        simp [hlb, hs]
      rw [hsb] at ih1 ih2
      rw [hevs, List.nil_append, hsb, hlb]
      exact ⟨ih1, ih2⟩

/-- C7: in each `process_show_hide_events` call, a hide is collected
exactly when the panel has draw info, was latched shown, and is no longer
Shown; a show exactly in the dual case; the latch is updated to whether
the status is Shown; hooks run as all hides then all shows; and over any
status sequence, the hook trace of a panel (draw info present, latch
initially false) strictly alternates and its show count exceeds its hide
count by exactly the final latch value. -/
theorem show_hide_latch :
    (∀ p s, ((processShowHide [p] [s]).2.1 ≠ [] ↔
        (p.drawInfo.isSome = true ∧ p.lastStatus = true ∧
          s ≠ PanelStatus.shown))
      ∧ ((processShowHide [p] [s]).2.2 ≠ [] ↔
        (p.drawInfo.isSome = true ∧ p.lastStatus = false ∧
          s = PanelStatus.shown))
      ∧ (processShowHide [p] [s]).1.map Panel.lastStatus =
          [s == PanelStatus.shown])
    ∧ (∀ hidden shown : List PanelDrawInfo, hookCalls hidden shown =
        List.replicate (hidden.filter PanelDrawInfo.hasHideFn).length false
        ++ List.replicate (shown.filter PanelDrawInfo.hasShowFn).length true)
    ∧ (∀ (p : Panel) (ss : List PanelStatus), p.drawInfo.isSome →
        p.lastStatus = false →
        List.Chain' (fun a b => a ≠ b) (latchTrace p ss)
        ∧ (latchTrace p ss).count true = (latchTrace p ss).count false +
            (if latchFinal false ss then 1 else 0)) := by
  refine ⟨?_, ?_, ?_⟩
  · intro p s
    refine ⟨?_, ?_, ?_⟩
    · cases hd : p.drawInfo <;>
        by_cases hl : p.lastStatus <;>
        by_cases hs : s = PanelStatus.shown <;>
        simp [processShowHide, collectHidden, hd, hl, hs]
    · cases hd : p.drawInfo <;>
        by_cases hl : p.lastStatus <;>
        by_cases hs : s = PanelStatus.shown <;>
        simp [processShowHide, collectShown, hd, hl, hs]
    · simp [processShowHide, updateLatches]
  · intro hidden shown
    simp [hookCalls, List.map_const']
  · intro p ss hdi hlast
    obtain ⟨h1, h2⟩ := latchTrace_invariant ss p hdi
    rw [hlast] at h1 h2
    refine ⟨altFrom_chain _ _ h1, ?_⟩
    simpa using h2

/-- C7 witness: a visible fixed panel over the status sequence
shown, zero-width, shown produces an alternating trace with one more
show than hide. -/
theorem show_hide_latch_witness :
    List.Chain' (fun a b => a ≠ b)
      (latchTrace (mkShown "w" 5)
        [PanelStatus.shown, PanelStatus.zeroWidth, PanelStatus.shown])
    ∧ (latchTrace (mkShown "w" 5)
        [PanelStatus.shown, PanelStatus.zeroWidth,
          PanelStatus.shown]).count true =
      (latchTrace (mkShown "w" 5)
        [PanelStatus.shown, PanelStatus.zeroWidth,
          PanelStatus.shown]).count false +
        (if latchFinal false
          [PanelStatus.shown, PanelStatus.zeroWidth, PanelStatus.shown]
          then 1 else 0) :=
  show_hide_latch.2.2 (mkShown "w" 5)
    [PanelStatus.shown, PanelStatus.zeroWidth, PanelStatus.shown] rfl rfl

/-- Splitting at the first separator after a separator-free prefix. -/
theorem splitOnce_append (action : List Char) :
    ∀ pname : List Char, ('.' : Char) ∉ pname →
      splitOnce '.' (pname ++ '.' :: action) = some (pname, action) := by
  intro pname
  induction pname with
  | nil => intro h; simp [splitOnce]
  | cons c cs ih =>
    intro h
    have hc : ¬ (c == '.') = true := by
      simp only [beq_iff_eq]
      intro hce
      exact h (hce ▸ List.mem_cons_self c cs)
    simp only [List.cons_append, splitOnce, hc, if_false, Bool.false_eq_true]
    rw [List.append_eq, ih (fun hm => h (List.mem_cons_of_mem c hm))]
    rfl

/-- C8: a panel-addressed message (no `#` prefix, a `.` splitting a
separator-free panel name from the action) with no matching panel, an
ambiguous name, or a unique match without endpoint produces exactly the
corresponding `Err` response to the IPC caller, sends no event to any
panel, and leaves the bar state unchanged. -/
theorem send_message_error_paths (bar : Bar) (pname action : List Char)
    (hdot : ('.' : Char) ∉ pname)
    (hhash : stripPrefixChar '#' (pname ++ '.' :: action) = Option.none) :
    (((allPanels bar).filter fun p => p.name == String.mk pname) = [] →
      sendMessage bar (pname ++ '.' :: action) =
        ⟨bar, [], some (EventResponse.err
            ("No panel with name " ++ String.mk pname ++ " was found")),
          Except.error
            ("No panel with name " ++ String.mk pname ++ " was found")⟩)
    ∧ (∀ t ts, ((allPanels bar).filter fun p => p.name == String.mk pname) =
          t :: ts → ts ≠ [] →
        sendMessage bar (pname ++ '.' :: action) =
          ⟨bar, [], some (EventResponse.err
              "This panel has multiple instances and cannot be messaged"),
            Except.error
              "This panel has multiple instances and cannot be messaged"⟩
        ∧ (sendMessage bar (pname ++ '.' :: action)).ipcResponse.map
            renderResponse = some ("FAILURE: " ++
              "This panel has multiple instances and cannot be messaged"))
    ∧ (∀ t, ((allPanels bar).filter fun p => p.name == String.mk pname) =
          [t] → t.hasEndpoint = false →
        sendMessage bar (pname ++ '.' :: action) =
          ⟨bar, [], some (EventResponse.err
              "The target panel has no associated sender and cannot be messaged"),
            Except.error
              "The target panel has no associated sender and cannot be messaged"⟩)
      := by
  have hsplit := splitOnce_append action pname hdot
  refine ⟨?_, ?_, ?_⟩
  · intro h
    unfold sendMessage
    rw [hhash]
    dsimp only
    rw [hsplit]
    dsimp only
    rw [h]
  · intro t ts h hts
    cases ts with
    | nil => exact absurd rfl hts
    | cons t2 ts2 =>
      constructor
      · unfold sendMessage
        rw [hhash]
        dsimp only
        rw [hsplit]
        dsimp only
        rw [h]
      · unfold sendMessage
        rw [hhash]
        dsimp only
        rw [hsplit]
        dsimp only
        rw [h]
        dsimp only
        rfl
  · intro t h hep
    unfold sendMessage
    rw [hhash]
    dsimp only
    rw [hsplit]
    dsimp only
    rw [h]
    dsimp only
    rw [if_neg (by rw [hep]; exact Bool.false_ne_true)]

/-- C8 witness: with two panels named "clock", the line `clock.refresh`
produces exactly `FAILURE: This panel has multiple instances and cannot
be messaged`, sends nothing, and leaves the bar unchanged. -/
theorem send_message_error_paths_witness :
    (sendMessage wBarClock
        ("clock".toList ++ '.' :: "refresh".toList)).ipcResponse.map
      renderResponse =
        some "FAILURE: This panel has multiple instances and cannot be messaged"
    ∧ (sendMessage wBarClock
        ("clock".toList ++ '.' :: "refresh".toList)).sentActions = []
    ∧ (sendMessage wBarClock
        ("clock".toList ++ '.' :: "refresh".toList)).bar = wBarClock := by
  have h := send_message_error_paths wBarClock ("clock".toList)
    ("refresh".toList) (by decide) (by decide)
  have hms : ((allPanels wBarClock).filter fun p =>
      p.name == String.mk ("clock".toList)) =
      [⟨Option.none, 0, "clock", true, false, false⟩,
        ⟨Option.none, 0, "clock", true, false, false⟩] := by decide
  obtain ⟨hout, -⟩ := h.2.1 _ _ hms (by simp)
  rw [hout]
  exact ⟨rfl, rfl, rfl⟩

end Lazybar
